import Mathlib

/-!
Shallow embedding of the PDF extraction core of `src/app.py`
(`extract_text_from_pdf`, lines 60-79, and `extract_key_figures`,
lines 82-109).

A decoded PDF document is modelled as a list of pages.  Each page carries
the plain text returned by `page.get_text()`, the text blocks returned by
`page.get_text("blocks")` (a rectangle plus the contained string; the code
uses `tb[1]` = `y0` and `tb[4]` = text), and the image list returned by
`page.get_images(full=True)` (the code uses `img_info[0]` = xref).
Coordinates are PyMuPDF floats; they are modelled as rationals, which is
faithful for the comparisons and subtractions the code performs.

Fallible library calls are modelled with `Option`: `page.get_image_bbox`
may raise, so an `ImageInfo` stores `Option Rect`; `doc.extract_image(xref)`
followed by `["image"]` may raise, so the document carries
`imageData : Nat → Option (List Nat)` mapping an xref to the raw encoded
bytes.  A `none` means the underlying call raises; since the Python code
has no `try`/`except` around these calls, the embedding propagates the
`none` out of `extract_key_figures` (the call aborts with an exception).

Strings are modelled as `List Char`.  The regular-expression fragments the
code uses are embedded directly:
  * `re.search(f"^{re.escape(keyword)}", text.strip(), re.MULTILINE)`
    is an occurrence of the literal keyword at the start of the stripped
    text or immediately after a newline (`searchLineStart`, `pyStrip`);
  * `text.split(keyword)[0]` is the portion of `text` before the first
    occurrence of `keyword` (`splitHead`);
  * `re.search(r'Figure\s*\d+|Fig\.\s*\d+', s, re.IGNORECASE)` is
    `captionSearch`.
-/

/-- Whitespace characters recognised by Python's `str.strip()` and `\s`
(ASCII range: space, tab, newline, carriage return, vertical tab, form
feed). -/
def isPySpace (c : Char) : Bool :=
  c == ' ' || c == '\t' || c == '\n' || c == '\r' ||
  c == Char.ofNat 11 || c == Char.ofNat 12

/-- Python `text.strip()`: drop leading and trailing whitespace. -/
def pyStrip (s : List Char) : List Char :=
  (s.dropWhile isPySpace).rdropWhile isPySpace

/-- Does `kw` occur immediately after some newline character of `s`? -/
def searchAfterNewline (kw : List Char) : List Char → Bool
  | [] => false
  | c :: rest => (c == '\n' && kw.isPrefixOf rest) || searchAfterNewline kw rest

/-- `re.search("^" + kw, s, re.MULTILINE)` for a literal keyword `kw`:
`kw` occurs at the start of `s` or immediately after a newline. -/
def searchLineStart (kw s : List Char) : Bool :=
  kw.isPrefixOf s || searchAfterNewline kw s

/-- Python `s.split(kw)[0]`: the portion of `s` strictly before the first
occurrence of `kw` (all of `s` when `kw` does not occur). -/
def splitHead (kw : List Char) : List Char → List Char
  | [] => []
  | c :: rest =>
    if kw.isPrefixOf (c :: rest) then [] else c :: splitHead kw rest

/-- Does `kw` occur anywhere in `s` as a contiguous substring? -/
def occursIn (kw : List Char) : List Char → Bool
  | [] => kw.isEmpty
  | c :: rest => kw.isPrefixOf (c :: rest) || occursIn kw rest

/-- The reference-section heading keywords of `extract_text_from_pdf`, in
the priority order of the source. -/
def reference_keywords : List (List Char) :=
  ["References".data, "REFERENCES".data, "참고문헌".data, "Bibliography".data]

/-- Case-insensitive prefix test (`re.IGNORECASE` on the ASCII letters of
the pattern literals). -/
def ciStartsWith : List Char → List Char → Bool
  | [], _ => true
  | _ :: _, [] => false
  | p :: ps, c :: cs => (p.toLower == c.toLower) && ciStartsWith ps cs

/-- `\s*\d+` anchored at the head of `s`: skip a run of whitespace, then
require a digit. -/
def spacesThenDigit : List Char → Bool
  | [] => false
  | c :: rest => if isPySpace c then spacesThenDigit rest else c.isDigit

/-- One anchored attempt of `Figure\s*\d+|Fig\.\s*\d+` (case-insensitive)
at the head of `s`. -/
def captionMatchAt (s : List Char) : Bool :=
  (ciStartsWith "figure".data s && spacesThenDigit (s.drop 6)) ||
  (ciStartsWith "fig.".data s && spacesThenDigit (s.drop 4))

/-- `re.search(r'Figure\s*\d+|Fig\.\s*\d+', s, re.IGNORECASE)` as a
Boolean: the pattern matches at some position of `s`. -/
def captionSearch : List Char → Bool
  | [] => false
  | c :: rest => captionMatchAt (c :: rest) || captionSearch rest

/-- A rectangle in page coordinates (origin top-left, `y` grows
downward), as returned by `page.get_image_bbox`. -/
structure Rect where
  x0 : Rat
  y0 : Rat
  x1 : Rat
  y1 : Rat
deriving DecidableEq

/-- One entry of `page.get_text("blocks")`: bounding rectangle plus the
contained text (`tb[0] .. tb[4]` of the Python tuple). -/
structure TextBlock where
  x0 : Rat
  y0 : Rat
  x1 : Rat
  y1 : Rat
  text : List Char
deriving DecidableEq

/-- One entry of `page.get_images(full=True)`: its xref handle
(`img_info[0]`) together with the outcome of
`page.get_image_bbox(img_info, transform=False)` (`none` = the call
raises). -/
structure ImageInfo where
  xref : Nat
  bbox : Option Rect
deriving DecidableEq

/-- One page of the decoded document. -/
structure Page where
  text : List Char
  blocks : List TextBlock
  images : List ImageInfo
deriving DecidableEq

/-- A decoded document: its pages, and the outcome of
`doc.extract_image(xref)["image"]` for each xref (`none` = the call
raises). -/
structure Doc where
  pages : List Page
  imageData : Nat → Option (List Nat)

/-- The keyword scan of lines 69-73: the first keyword of
`reference_keywords` (in order) matching at a line start of the stripped
page text. -/
def findKeyword (text : List Char) : Option (List Char) :=
  reference_keywords.find? (fun kw => searchLineStart kw (pyStrip text))

/-- The page loop of `extract_text_from_pdf` (lines 66-77), with the
`stop_extraction` flag made explicit. -/
def extractTextLoop (optimize : Bool) : List Page → Bool → List Char
  | [], _ => []
  | p :: ps, stop =>
    if stop then extractTextLoop optimize ps stop
    else if optimize then
      match findKeyword p.text with
      | some kw => splitHead kw p.text ++ extractTextLoop optimize ps true
      | none => p.text ++ extractTextLoop optimize ps false
    else p.text ++ extractTextLoop optimize ps false

/-- `extract_text_from_pdf` (lines 60-79). -/
def extract_text_from_pdf (d : Doc) (optimize : Bool) : List Char :=
  extractTextLoop optimize d.pages false

/-- The caption-candidate accumulation of lines 96-99: concatenate, in
block order, the text of every block whose top edge lies below the image's
bottom edge within a vertical gap of fewer than 70 units. -/
def caption_candidate : List TextBlock → Rect → List Char
  | [], _ => []
  | tb :: rest, r =>
    (if tb.y0 > r.y1 ∧ |tb.y0 - r.y1| < 70 then tb.text else []) ++
      caption_candidate rest r

/-- The per-image loop of lines 94-104 for one page, parameterised by the
document's `extract_image` outcomes (the only part of the document the
loop consults).  A failing `get_image_bbox` or `extract_image` call
propagates (`none`): the source has no exception handler. -/
def page_figures (imgData : Nat → Option (List Nat)) (blocks : List TextBlock) :
    List ImageInfo → Option (List (List Nat))
  | [] => some []
  | img :: rest =>
    match img.bbox with
    | none => none
    | some r =>
      if captionSearch (caption_candidate blocks r) then
        match imgData img.xref with
        | none => none
        | some bytes =>
          match page_figures imgData blocks rest with
          | none => none
          | some more => some (bytes :: more)
      else page_figures imgData blocks rest

/-- The page loop of lines 91-106 (the progress-bar side effects carry no
result and are modelled separately). -/
def figures_loop (imgData : Nat → Option (List Nat)) :
    List Page → Option (List (List Nat))
  | [] => some []
  | p :: ps =>
    match page_figures imgData p.blocks p.images with
    | none => none
    | some f =>
      match figures_loop imgData ps with
      | none => none
      | some r => some (f ++ r)

/-- Lines 87-89: all pages, except that the first page is dropped when
`optimize` is set and the document has more than one page. -/
def pages_to_process (d : Doc) (optimize : Bool) : List Page :=
  if optimize && d.pages.length > 1 then d.pages.drop 1 else d.pages

/-- `extract_key_figures` (lines 82-109).  `none` models the call raising
an exception. -/
def extract_key_figures (d : Doc) (optimize : Bool) :
    Option (List (List Nat)) :=
  figures_loop d.imageData (pages_to_process d optimize)

/-- Whether the image would be accepted by the caption test of lines
95-100 (false when its bbox retrieval fails, in which case the source
raises before testing). -/
def image_accepted (blocks : List TextBlock) (img : ImageInfo) : Bool :=
  match img.bbox with
  | some r => captionSearch (caption_candidate blocks r)
  | none => false

/-- The raw bytes `doc.extract_image(xref)["image"]` of an image, when
retrievable. -/
def image_bytes (imgData : Nat → Option (List Nat)) (img : ImageInfo) :
    List Nat :=
  (imgData img.xref).getD []

/-- Every image operation on the page succeeds: each bbox is retrievable,
and the bytes of each accepted image are retrievable. -/
def page_clean (imgData : Nat → Option (List Nat)) (p : Page) : Bool :=
  p.images.all fun img =>
    img.bbox.isSome &&
      (!(image_accepted p.blocks img) || (imgData img.xref).isSome)

/-- Every image operation on every processed page succeeds. -/
def doc_clean (d : Doc) (optimize : Bool) : Bool :=
  (pages_to_process d optimize).all (page_clean d.imageData)

/-- The result sequence described by the spec: for each processed page in
order, the bytes of its caption-accepted images in enumeration order. -/
def described_figures (d : Doc) (optimize : Bool) : List (List Nat) :=
  ((pages_to_process d optimize).map fun p =>
    (p.images.filter (image_accepted p.blocks)).map
      (image_bytes d.imageData)).flatten

/-- Rational division refusing a zero denominator, modelling Python's
`/` raising `ZeroDivisionError`. -/
def ratDiv (a b : Rat) : Option Rat :=
  if b = 0 then none else some (a / b)

/-- The progress fractions `(i + 1) / total_pages_to_process` computed by
line 105, one per loop iteration. -/
def progressFractions (n : Nat) : List Nat → Option (List Rat)
  | [] => some []
  | i :: rest =>
    match ratDiv ((i : Rat) + 1) (n : Rat) with
    | none => none
    | some q =>
      match progressFractions n rest with
      | none => none
      | some l => some (q :: l)

/-- All progress updates issued by a run of `extract_key_figures`. -/
def progress_updates (d : Doc) (optimize : Bool) : Option (List Rat) :=
  progressFractions (pages_to_process d optimize).length
    (List.range (pages_to_process d optimize).length)

/-! ### Helper lemmas -/

/-- Once `stop_extraction` is set, the loop appends nothing more. -/
theorem extractTextLoop_stopped (optimize : Bool) :
    ∀ ps : List Page, extractTextLoop optimize ps true = [] := by
  intro ps
  induction ps with
  | nil => rfl
  | cons p ps ih => simpa [extractTextLoop] using ih

/-- Pages on which no keyword fires are appended in full. -/
theorem extractTextLoop_skip (pre rest : List Page)
    (h : ∀ q ∈ pre, findKeyword q.text = none) :
    extractTextLoop true (pre ++ rest) false =
      (pre.map Page.text).flatten ++ extractTextLoop true rest false := by
  induction pre with
  | nil => rfl
  | cons q qs ih =>
    have hq := h q (List.mem_cons_self q qs)
    have hqs : ∀ x ∈ qs, findKeyword x.text = none := fun x hx =>
      h x (List.mem_cons_of_mem q hx)
    simp [extractTextLoop, hq, ih hqs]

/-- With `optimize` off, the loop concatenates every page's text. -/
theorem extractTextLoop_false (ps : List Page) :
    extractTextLoop false ps false = (ps.map Page.text).flatten := by
  induction ps with
  | nil => rfl
  | cons p ps ih => simp [extractTextLoop, ih]

/-- On a page whose image operations all succeed, the image loop returns
exactly the caption-accepted images' bytes, in enumeration order. -/
theorem page_figures_ok (f : Nat → Option (List Nat)) (blocks : List TextBlock) :
    ∀ imgs : List ImageInfo,
      (∀ img ∈ imgs, img.bbox.isSome = true ∧
        (image_accepted blocks img = true → (f img.xref).isSome = true)) →
      page_figures f blocks imgs =
        some ((imgs.filter (image_accepted blocks)).map (image_bytes f)) := by
  intro imgs
  induction imgs with
  | nil => intro _; rfl
  | cons img rest ih =>
    intro h
    obtain ⟨hb, hacc⟩ := h img (List.mem_cons_self img rest)
    obtain ⟨r, hr⟩ := Option.isSome_iff_exists.mp hb
    have hrest := fun x hx => h x (List.mem_cons_of_mem img hx)
    cases hc : captionSearch (caption_candidate blocks r) with
    | true =>
      have hacc1 : image_accepted blocks img = true := by
        simp [image_accepted, hr, hc]
      obtain ⟨bytes, hbytes⟩ := Option.isSome_iff_exists.mp (hacc hacc1)
      simp [page_figures, hr, hc, hbytes, ih hrest, hacc1, image_bytes]
    | false =>
      have hacc0 : image_accepted blocks img = false := by
        simp [image_accepted, hr, hc]
      simp [page_figures, hr, hc, ih hrest, hacc0]

/-- Over clean pages, the page loop returns the accepted images' bytes of
every page, concatenated in page order. -/
theorem figures_loop_ok (f : Nat → Option (List Nat)) :
    ∀ ps : List Page, (∀ p ∈ ps, page_clean f p = true) →
      figures_loop f ps =
        some ((ps.map fun p =>
          (p.images.filter (image_accepted p.blocks)).map
            (image_bytes f)).flatten) := by
  intro ps
  induction ps with
  | nil => intro _; rfl
  | cons p rest ih =>
    intro h
    have hp := h p (List.mem_cons_self p rest)
    have himgs : ∀ img ∈ p.images, img.bbox.isSome = true ∧
        (image_accepted p.blocks img = true → (f img.xref).isSome = true) := by
      intro img hm
      have hi := List.all_eq_true.mp hp img hm
      simp only [Bool.and_eq_true, Bool.or_eq_true, Bool.not_eq_true'] at hi
      refine ⟨hi.1, fun ha => ?_⟩
      rcases hi.2 with h0 | h1
      · rw [ha] at h0; cases h0
      · exact h1
    have hrest := fun x hx => h x (List.mem_cons_of_mem p hx)
    simp [figures_loop, page_figures_ok f p.blocks p.images himgs, ih hrest]

/-- A leading match survives appending on the right. -/
theorem isPrefixOf_append (kw : List Char) :
    ∀ t ext : List Char, kw.isPrefixOf t = true →
      kw.isPrefixOf (t ++ ext) = true := by
  induction kw with
  | nil => intro t ext _; simp
  | cons a as ih =>
    intro t ext h
    cases t with
    | nil => cases h
    | cons b bs =>
      simp only [List.cons_append, List.isPrefixOf_cons₂, Bool.and_eq_true]
        at h ⊢
      exact ⟨h.1, ih bs ext h.2⟩

/-- The empty word occurs in every string. -/
theorem occursIn_nil (s : List Char) : occursIn [] s = true := by
  cases s with
  | nil => rfl
  | cons c rest => simp [occursIn, List.isPrefixOf]

/-- A leading match is an occurrence. -/
theorem occursIn_of_isPrefixOf (kw s : List Char)
    (h : kw.isPrefixOf s = true) : occursIn kw s = true := by
  cases s with
  | nil =>
    cases kw with
    | nil => rfl
    | cons a as => cases h
  | cons c rest => simp [occursIn, h]

/-- An occurrence survives prepending on the left. -/
theorem occursIn_append_left (kw t : List Char) :
    ∀ ext : List Char, occursIn kw t = true →
      occursIn kw (ext ++ t) = true := by
  intro ext
  induction ext with
  | nil => exact id
  | cons e es ih =>
    intro h
    simp [occursIn, ih h]

/-- An occurrence survives appending on the right. -/
theorem occursIn_append_right (kw : List Char) :
    ∀ t ext : List Char, occursIn kw t = true →
      occursIn kw (t ++ ext) = true := by
  intro t
  induction t with
  | nil =>
    intro ext h
    have hk : kw = [] := List.isEmpty_iff.mp h
    subst hk
    exact occursIn_nil ext
  | cons c rest ih =>
    intro ext h
    simp only [occursIn, Bool.or_eq_true] at h
    rcases h with h | h
    · simpa [occursIn] using
        Or.inl (isPrefixOf_append kw (c :: rest) ext h)
    · simp [occursIn, ih ext h]

/-- A match right after a newline is an occurrence in the string. -/
theorem occursIn_of_searchAfterNewline (kw : List Char) :
    ∀ s, searchAfterNewline kw s = true → occursIn kw s = true := by
  intro s
  induction s with
  | nil => intro h; cases h
  | cons c rest ih =>
    intro h
    simp only [searchAfterNewline, Bool.or_eq_true, Bool.and_eq_true] at h
    rcases h with ⟨_, hpre⟩ | h
    · simp [occursIn, occursIn_of_isPrefixOf kw rest hpre]
    · simp [occursIn, ih h]

/-- A line-start match is an occurrence in the string. -/
theorem occursIn_of_searchLineStart (kw s : List Char)
    (h : searchLineStart kw s = true) : occursIn kw s = true := by
  simp only [searchLineStart, Bool.or_eq_true] at h
  rcases h with h | h
  · exact occursIn_of_isPrefixOf kw s h
  · exact occursIn_of_searchAfterNewline kw s h

/-- The stripped string sits contiguously inside the original. -/
theorem pyStrip_decomp (s : List Char) :
    ∃ u v : List Char, u ++ (pyStrip s ++ v) = s := by
  have h1 : s.dropWhile isPySpace <:+ s := List.dropWhile_suffix isPySpace
  obtain ⟨u, hu⟩ := h1
  have h2 : (s.dropWhile isPySpace).reverse.dropWhile isPySpace <:+
      (s.dropWhile isPySpace).reverse := List.dropWhile_suffix isPySpace
  obtain ⟨w, hw⟩ := h2
  refine ⟨u, w.reverse, ?_⟩
  have hdecomp : s.dropWhile isPySpace = pyStrip s ++ w.reverse := by
    have := congrArg List.reverse hw
    simpa [pyStrip, List.rdropWhile] using this.symm
  rw [← hdecomp, hu]

/-- An occurrence in the stripped string is an occurrence in the
original string. -/
theorem occursIn_of_pyStrip (kw s : List Char)
    (h : occursIn kw (pyStrip s) = true) : occursIn kw s = true := by
  obtain ⟨u, v, huv⟩ := pyStrip_decomp s
  rw [← huv]
  exact occursIn_append_left kw (pyStrip s ++ v) u
    (occursIn_append_right kw (pyStrip s) v h)

/-- With a non-zero page total, every progress fraction is defined. -/
theorem progressFractions_isSome (n : Nat) (hn : n ≠ 0) :
    ∀ is : List Nat, (progressFractions n is).isSome = true := by
  intro is
  induction is with
  | nil => rfl
  | cons i rest ih =>
    have hq : ratDiv ((i : Rat) + 1) (n : Rat) =
        some (((i : Rat) + 1) / (n : Rat)) := by
      simp [ratDiv, hn]
    obtain ⟨l, hl⟩ := Option.isSome_iff_exists.mp ih
    simp [progressFractions, hq, hl]

/-- A page on which no keyword fires at a line start yields no keyword. -/
theorem findKeyword_eq_none (t : List Char)
    (h : ∀ k ∈ reference_keywords, searchLineStart k (pyStrip t) = false) :
    findKeyword t = none :=
  List.find?_eq_none.mpr fun k hk => by simp [h k hk]

/-- When no page triggers a keyword, the optimized loop appends every
page in full, like the unoptimized loop. -/
theorem extractTextLoop_no_keyword (ps : List Page)
    (h : ∀ p ∈ ps, findKeyword p.text = none) :
    extractTextLoop true ps false = extractTextLoop false ps false := by
  induction ps with
  | nil => rfl
  | cons p rest ih =>
    have hp := h p (List.mem_cons_self p rest)
    have hrest := fun x hx => h x (List.mem_cons_of_mem p hx)
    simp [extractTextLoop, hp, ih hrest]

/-- The keyword scan returns the first keyword, in priority order, that
matches at a line start of the stripped text. -/
theorem findKeyword_eq_some (t : List Char) (kw : List Char) (j : Nat)
    (hj : reference_keywords[j]? = some kw)
    (hmatch : searchLineStart kw (pyStrip t) = true)
    (hfirst : ∀ i k, i < j → reference_keywords[i]? = some k →
      searchLineStart k (pyStrip t) = false) :
    findKeyword t = some kw := by
  rcases j with _ | _ | _ | _ | j
  · have hkw : kw = "References".data := by
      simp [reference_keywords] at hj
      exact hj.symm
    subst hkw
    simp [findKeyword, reference_keywords, List.find?, hmatch]
  · have h0 := hfirst 0 "References".data (by omega) rfl
    have hkw : kw = "REFERENCES".data := by
      simp [reference_keywords] at hj
      exact hj.symm
    subst hkw
    simp [findKeyword, reference_keywords, List.find?, hmatch, h0]
  · have h0 := hfirst 0 "References".data (by omega) rfl
    have h1 := hfirst 1 "REFERENCES".data (by omega) rfl
    have hkw : kw = "참고문헌".data := by
      simp [reference_keywords] at hj
      exact hj.symm
    subst hkw
    simp [findKeyword, reference_keywords, List.find?, hmatch, h0, h1]
  · have h0 := hfirst 0 "References".data (by omega) rfl
    have h1 := hfirst 1 "REFERENCES".data (by omega) rfl
    have h2 := hfirst 2 "참고문헌".data (by omega) rfl
    have hkw : kw = "Bibliography".data := by
      simp [reference_keywords] at hj
      exact hj.symm
    subst hkw
    simp [findKeyword, reference_keywords, List.find?, hmatch, h0, h1, h2]
  · simp [reference_keywords] at hj

/-- C6: with `optimize=false`, `extract_text_from_pdf` returns the
concatenation of every page's full text in page order, with no omissions
and no truncation. -/
theorem no_optimize_concatenates_all_pages (d : Doc) :
    extract_text_from_pdf d false = (d.pages.map Page.text).flatten :=
  extractTextLoop_false d.pages

/-- C7: on a zero-page document, `extract_text_from_pdf` returns the
empty string and `extract_key_figures` returns the empty list, without
error, for both values of `optimize`. -/
theorem empty_document_yields_empty_results
    (imgData : Nat → Option (List Nat)) (optimize : Bool) :
    extract_text_from_pdf ⟨[], imgData⟩ optimize = [] ∧
    extract_key_figures ⟨[], imgData⟩ optimize = some [] := by
  constructor
  · rfl
  · simp [extract_key_figures, pages_to_process, figures_loop]

/-- C10: the progress fraction `(i + 1) / total_pages_to_process` never
divides by zero: the division runs only inside the page loop, whose body
executes only when the processed-page list is non-empty. -/
theorem progress_division_never_by_zero (d : Doc) (optimize : Bool) :
    (progress_updates d optimize).isSome = true := by
  unfold progress_updates
  cases hn : (pages_to_process d optimize).length with
  | zero => rfl
  | succ n => exact progressFractions_isSome (n + 1) (Nat.succ_ne_zero n) _

/-- C8: both extractors are deterministic: their results are functions of
the decoded pages (and, for the figure extractor, the image payloads)
alone, so two calls on identical inputs agree. -/
theorem extractors_are_deterministic (d d2 : Doc) (optimize : Bool)
    (hpages : d.pages = d2.pages) :
    extract_text_from_pdf d optimize = extract_text_from_pdf d2 optimize ∧
    ((∀ x, d.imageData x = d2.imageData x) →
      extract_key_figures d optimize = extract_key_figures d2 optimize) := by
  obtain ⟨pg, f⟩ := d
  obtain ⟨pg2, f2⟩ := d2
  have hp : pg = pg2 := hpages
  subst hp
  refine ⟨rfl, fun hf => ?_⟩
  have hfe : f = f2 := funext hf
  subst hfe
  rfl

/-- A document used to instantiate the determinism theorem. -/
def detDoc : Doc := ⟨[⟨"sample page".data, [], []⟩], fun _ => some []⟩

/-- Witness for C8 at a concrete document. -/
theorem extractors_are_deterministic_witness :
    extract_text_from_pdf detDoc true = extract_text_from_pdf detDoc true ∧
    ((∀ x, detDoc.imageData x = detDoc.imageData x) →
      extract_key_figures detDoc true = extract_key_figures detDoc true) :=
  extractors_are_deterministic detDoc detDoc true rfl

/-- C4: with `optimize=true` on a document of more than one page the
figure extractor never consults page 1 (so an image enumerated only there
is never returned); with `optimize=false`, or with at most one page,
every page including the first is scanned. -/
theorem first_page_skipped_iff_optimize
    (imgData : Nat → Option (List Nat)) (p1 p2 : Page) (rest : List Page)
    (d : Doc) (hrest : rest ≠ []) :
    extract_key_figures ⟨p1 :: rest, imgData⟩ true =
      extract_key_figures ⟨p2 :: rest, imgData⟩ true ∧
    extract_key_figures d false = figures_loop d.imageData d.pages ∧
    (d.pages.length ≤ 1 →
      extract_key_figures d true = figures_loop d.imageData d.pages) := by
  refine ⟨?_, ?_, ?_⟩
  · cases rest with
    | nil => exact absurd rfl hrest
    | cons q qs =>
      have hlen : 1 < (p1 :: q :: qs).length := by simp
      have hlen2 : 1 < (p2 :: q :: qs).length := by simp
      simp [extract_key_figures, pages_to_process, hlen, hlen2]
  · rfl
  · intro hle
    have hnot : ¬ (1 < d.pages.length) := by omega
    simp [extract_key_figures, pages_to_process, hnot]

/-- A page carrying one captioned image, used to instantiate C4. -/
def c4pgA : Page :=
  ⟨"A".data, [⟨0, 130, 50, 140, "Figure 1: sample".data⟩],
    [⟨3, some ⟨0, 10, 50, 100⟩⟩]⟩

/-- A page without images, used to instantiate C4. -/
def c4pgB : Page := ⟨"B".data, [], []⟩

/-- Image payloads used to instantiate C4. -/
def c4data : Nat → Option (List Nat) := fun _ => some [5]

/-- A one-page document used to instantiate C4. -/
def c4doc : Doc := ⟨[c4pgB], c4data⟩

/-- Witness for C4 at a concrete two-page document: the result with
`optimize=true` does not change when page 1 is replaced. -/
theorem first_page_skipped_iff_optimize_witness :
    extract_key_figures ⟨c4pgA :: [c4pgB], c4data⟩ true =
      extract_key_figures ⟨c4pgB :: [c4pgB], c4data⟩ true ∧
    extract_key_figures c4doc false = figures_loop c4doc.imageData c4doc.pages ∧
    (c4doc.pages.length ≤ 1 →
      extract_key_figures c4doc true = figures_loop c4doc.imageData c4doc.pages) :=
  first_page_skipped_iff_optimize c4data c4pgA c4pgB [c4pgB] c4doc
    (by simp)

/-- C1: with `optimize=true`, pages are scanned in order for the
reference keywords, in priority order, each anchored at a line start of
the stripped page text; on the first page where one matches, only the
portion of the original untrimmed page text preceding the first
occurrence of that keyword is appended, and nothing further is appended
from that page or any later page. -/
theorem extract_text_truncates_at_first_reference_heading
    (d : Doc) (pre post : List Page) (p : Page) (kw : List Char) (j : Nat)
    (hpages : d.pages = pre ++ p :: post)
    (hpre : ∀ q ∈ pre, ∀ k ∈ reference_keywords,
      searchLineStart k (pyStrip q.text) = false)
    (hj : reference_keywords[j]? = some kw)
    (hmatch : searchLineStart kw (pyStrip p.text) = true)
    (hfirst : ∀ i k, i < j → reference_keywords[i]? = some k →
      searchLineStart k (pyStrip p.text) = false) :
    extract_text_from_pdf d true =
      (pre.map Page.text).flatten ++ splitHead kw p.text := by
  have hfind := findKeyword_eq_some p.text kw j hj hmatch hfirst
  have hnone : ∀ q ∈ pre, findKeyword q.text = none := fun q hq =>
    findKeyword_eq_none q.text (hpre q hq)
  unfold extract_text_from_pdf
  rw [hpages, extractTextLoop_skip pre (p :: post) hnone]
  simp [extractTextLoop, hfind, extractTextLoop_stopped]

/-- Title page used to instantiate C1. -/
def c1p1 : Page := ⟨"Title page\n".data, [], []⟩

/-- Page whose text reaches a references heading, used to instantiate
C1. -/
def c1p2 : Page := ⟨"Body text\nReferences\n[1] A paper\n".data, [], []⟩

/-- Trailing page used to instantiate C1. -/
def c1p3 : Page := ⟨"Appendix\n".data, [], []⟩

/-- Three-page document used to instantiate C1. -/
def c1doc : Doc := ⟨[c1p1, c1p2, c1p3], fun _ => none⟩

/-- Witness for C1: page 1 is kept whole, page 2 is cut before
"References", page 3 contributes nothing. -/
theorem extract_text_truncates_at_first_reference_heading_witness :
    extract_text_from_pdf c1doc true =
      (([c1p1].map Page.text).flatten ++
        splitHead "References".data c1p2.text) :=
  extract_text_truncates_at_first_reference_heading c1doc [c1p1] [c1p3]
    c1p2 "References".data 0 rfl (by decide) rfl (by decide)
    (fun i k hik _ => absurd hik (Nat.not_lt_zero i))

/-- C5: when no reference keyword occurs anywhere on any page,
`extract_text_from_pdf` returns the same string with and without
`optimize`. -/
theorem optimize_preserves_text_without_keywords (d : Doc)
    (h : ∀ p ∈ d.pages, ∀ k ∈ reference_keywords,
      occursIn k p.text = false) :
    extract_text_from_pdf d true = extract_text_from_pdf d false := by
  unfold extract_text_from_pdf
  apply extractTextLoop_no_keyword
  intro p hp
  apply findKeyword_eq_none p.text
  intro k hk
  cases hb : searchLineStart k (pyStrip p.text) with
  | false => rfl
  | true =>
    have hocc : occursIn k p.text = true :=
      occursIn_of_pyStrip k p.text
        (occursIn_of_searchLineStart k (pyStrip p.text) hb)
    rw [h p hp k hk] at hocc
    cases hocc

/-- A keyword-free document used to instantiate C5. -/
def c5doc : Doc :=
  ⟨[⟨"Hello world\nSecond line\n".data, [], []⟩,
    ⟨"Closing remarks\n".data, [], []⟩], fun _ => none⟩

/-- Witness for C5 at a concrete keyword-free document. -/
theorem optimize_preserves_text_without_keywords_witness :
    extract_text_from_pdf c5doc true = extract_text_from_pdf c5doc false :=
  optimize_preserves_text_without_keywords c5doc (by decide)

/-- C2: when every per-image retrieval succeeds, the figure extractor
returns exactly the raw bytes of the images whose caption candidate (the
concatenated text blocks below the image within a gap of fewer than 70
units) matches the figure pattern, in page order then enumeration
order. -/
theorem figures_are_caption_filtered (d : Doc) (optimize : Bool)
    (h : doc_clean d optimize = true) :
    extract_key_figures d optimize = some (described_figures d optimize) := by
  unfold extract_key_figures described_figures
  exact figures_loop_ok d.imageData (pages_to_process d optimize)
    (fun p hp => List.all_eq_true.mp h p hp)

/-- Page with one accepted image (xref 1) and one caption-less image
(xref 2), used to instantiate C2. -/
def c2page : Page :=
  ⟨"".data, [⟨0, 330, 100, 345, "Figure 1: response curve".data⟩],
    [⟨1, some ⟨0, 100, 100, 300⟩⟩, ⟨2, some ⟨0, 100, 100, 500⟩⟩]⟩

/-- One-page document used to instantiate C2. -/
def c2doc : Doc :=
  ⟨[c2page], fun x => if x = 1 then some [10, 20] else some [9]⟩

/-- Witness for C2 at a concrete one-page document. -/
theorem figures_are_caption_filtered_witness :
    extract_key_figures c2doc false = some (described_figures c2doc false) :=
  figures_are_caption_filtered c2doc false (by with_unfolding_all decide)

/-- C9: no deduplication: over clean inputs, each byte payload occurs in
the result exactly as many times as there are qualifying (page, image)
enumerations yielding that payload. -/
theorem figures_not_deduplicated (d : Doc) (optimize : Bool) (b : List Nat)
    (h : doc_clean d optimize = true) :
    ∃ l, extract_key_figures d optimize = some l ∧
      l.count b =
        (((pages_to_process d optimize).map fun p =>
          p.images.filter (image_accepted p.blocks)).flatten.countP
            fun img => image_bytes d.imageData img == b) := by
  refine ⟨described_figures d optimize, ?_, ?_⟩
  · unfold extract_key_figures described_figures
    exact figures_loop_ok d.imageData (pages_to_process d optimize)
      (fun p hp => List.all_eq_true.mp h p hp)
  · have h1 : described_figures d optimize =
        (((pages_to_process d optimize).map fun p =>
          p.images.filter (image_accepted p.blocks)).flatten).map
            (image_bytes d.imageData) := by
      unfold described_figures
      rw [List.map_flatten, List.map_map]
      rfl
    rw [h1, List.count_eq_countP, List.countP_map]
    rfl

/-- Page enumerating the same captioned image (xref 5) twice, used to
instantiate C9. -/
def c9page : Page :=
  ⟨"".data, [⟨0, 230, 40, 240, "Fig. 2 duplicated panel".data⟩],
    [⟨5, some ⟨0, 0, 40, 200⟩⟩, ⟨5, some ⟨0, 0, 40, 200⟩⟩]⟩

/-- One-page document used to instantiate C9. -/
def c9doc : Doc := ⟨[c9page], fun _ => some [42]⟩

/-- Witness for C9 at a document that lists one image twice: the payload
count in the result equals the number of qualifying enumerations. -/
theorem figures_not_deduplicated_witness :
    ∃ l, extract_key_figures c9doc false = some l ∧
      l.count [42] =
        (((pages_to_process c9doc false).map fun p =>
          p.images.filter (image_accepted p.blocks)).flatten.countP
            fun img => image_bytes c9doc.imageData img == [42]) :=
  figures_not_deduplicated c9doc false [42] (by with_unfolding_all decide)

/-- Page with a corrupt image (xref 1, bbox retrieval raises) listed
before a valid captioned image (xref 2), used for C3. -/
def c3page : Page :=
  ⟨"".data, [⟨0, 330, 60, 342, "Figure 1: intact panel".data⟩],
    [⟨1, none⟩, ⟨2, some ⟨0, 50, 60, 300⟩⟩]⟩

/-- The valid captioned image of `c3page`. -/
def c3goodImg : ImageInfo := ⟨2, some ⟨0, 50, 60, 300⟩⟩

/-- One-page document with one corrupt and one valid image, used for
C3. -/
def c3doc : Doc := ⟨[c3page], fun x => if x = 2 then some [7, 7] else none⟩

/-- C3 (code bug): the source has no per-image exception handler, so one
corrupt image aborts the whole scan: on `c3doc` the call fails (`none`)
even though the page also carries a valid, caption-accepted image whose
bytes are retrievable. -/
theorem figure_retrieval_error_aborts_scan :
    extract_key_figures c3doc false = none ∧
    image_accepted c3page.blocks c3goodImg = true ∧
    c3doc.imageData c3goodImg.xref = some [7, 7] := by
  refine ⟨?_, ?_, ?_⟩ <;> with_unfolding_all decide
